import Mathlib

/-
Verification of the helga chat-client core against its specification.

The repository ships only `helga/tests/test_comm.py` and
`helga/plugins/haiku.py` under src/.  The connection/session module
`helga/comm.py` that the tests exercise is not part of the source
excerpt, so every definition below that concerns it is modelled from the
spec (its doc comment says so); the haiku plugin definitions are
translated directly from `src/helga/plugins/haiku.py`.

Text is modelled as `List Char` (native text) and wire bytes as
`List Nat` (each element one octet); codepoints are `Nat`.
-/

namespace Helga

/-- Modelled from the spec: the Encoding Adapter's `encode(text) -> bytes`
for a single codepoint (`helga/comm.py` is not in the source excerpt).
The wire encoding is UTF-8: the test suite fixes the snowman codepoint
U+2603 to the bytes e2 98 83. -/
def encChar (c : Nat) : List Nat :=
  if c < 0x80 then [c]
  else if c < 0x800 then [0xC0 + c / 64, 0x80 + c % 64]
  else if c < 0x10000 then [0xE0 + c / 4096, 0x80 + c / 64 % 64, 0x80 + c % 64]
  else [0xF0 + c / 262144, 0x80 + c / 4096 % 64, 0x80 + c / 64 % 64, 0x80 + c % 64]

/-- Modelled from the spec: the Encoding Adapter's `encode` on a whole
text, a sequence of codepoints. -/
def encode (text : List Nat) : List Nat :=
  (text.map encChar).flatten

/-- Modelled from the spec: the Encoding Adapter's `decode(bytes) -> text`,
written as a byte-at-a-time UTF-8 state machine.  `need` counts the
continuation bytes still expected and `acc` holds the partial codepoint. -/
def decodeAux : Nat → Nat → List Nat → Option (List Nat)
  | need, _, [] => if need = 0 then some [] else none
  | need, acc, b :: bs =>
    if need = 0 then
      if b < 0x80 then (decodeAux 0 0 bs).map (b :: ·)
      else if b < 0xC0 then none
      else if b < 0xE0 then decodeAux 1 (b - 0xC0) bs
      else if b < 0xF0 then decodeAux 2 (b - 0xE0) bs
      else if b < 0xF8 then decodeAux 3 (b - 0xF0) bs
      else none
    else
      if 0x80 ≤ b ∧ b < 0xC0 then
        if need = 1 then (decodeAux 0 0 bs).map ((acc * 64 + (b - 0x80)) :: ·)
        else decodeAux (need - 1) (acc * 64 + (b - 0x80)) bs
      else none

/-- Modelled from the spec: the Encoding Adapter's `decode` entry point. -/
def decode (bs : List Nat) : Option (List Nat) :=
  decodeAux 0 0 bs

/-- Valid text: every codepoint is inside the Unicode range. -/
def ValidText (text : List Nat) : Prop :=
  ∀ cp ∈ text, cp < 0x110000

theorem decodeAux_encChar (c : Nat) (hc : c < 0x110000) (rest : List Nat) :
    decodeAux 0 0 (encChar c ++ rest) = (decodeAux 0 0 rest).map (c :: ·) := by
  by_cases h1 : c < 0x80
  · simp [encChar, h1, decodeAux]
  · by_cases h2 : c < 0x800
    · have hA : ¬ (0xC0 + c / 64 < 0x80) := by omega
      have hB : ¬ (0xC0 + c / 64 < 0xC0) := by omega
      have hC : 0xC0 + c / 64 < 0xE0 := by omega
      have hD : 0x80 ≤ 0x80 + c % 64 ∧ 0x80 + c % 64 < 0xC0 := by omega
      simp only [encChar, if_neg h1, if_pos h2, List.cons_append, List.nil_append]
      simp [decodeAux, hA, hB, hC, hD]
      have hv : c / 64 * 64 + c % 64 = c := by omega
      rw [hv]
    · by_cases h3 : c < 0x10000
      · have hA : ¬ (0xE0 + c / 4096 < 0x80) := by omega
        have hB : ¬ (0xE0 + c / 4096 < 0xC0) := by omega
        have hC : ¬ (0xE0 + c / 4096 < 0xE0) := by omega
        have hD : 0xE0 + c / 4096 < 0xF0 := by omega
        have hE : 0x80 ≤ 0x80 + c / 64 % 64 ∧ 0x80 + c / 64 % 64 < 0xC0 := by omega
        have hF : 0x80 ≤ 0x80 + c % 64 ∧ 0x80 + c % 64 < 0xC0 := by omega
        simp only [encChar, if_neg h1, if_neg h2, if_pos h3, List.cons_append,
          List.nil_append]
        simp [decodeAux, hA, hB, hC, hD, hE, hF]
        have hv : (c / 4096 * 64 + c / 64 % 64) * 64 + c % 64 = c := by omega
        rw [hv]
      · have hA : ¬ (0xF0 + c / 262144 < 0x80) := by omega
        have hB : ¬ (0xF0 + c / 262144 < 0xC0) := by omega
        have hC : ¬ (0xF0 + c / 262144 < 0xE0) := by omega
        have hD : ¬ (0xF0 + c / 262144 < 0xF0) := by omega
        have hE : 0xF0 + c / 262144 < 0xF8 := by omega
        have hF : 0x80 ≤ 0x80 + c / 4096 % 64 ∧ 0x80 + c / 4096 % 64 < 0xC0 := by omega
        have hG : 0x80 ≤ 0x80 + c / 64 % 64 ∧ 0x80 + c / 64 % 64 < 0xC0 := by omega
        have hH : 0x80 ≤ 0x80 + c % 64 ∧ 0x80 + c % 64 < 0xC0 := by omega
        simp only [encChar, if_neg h1, if_neg h2, if_neg h3, List.cons_append,
          List.nil_append]
        simp [decodeAux, hA, hB, hC, hD, hE, hF, hG, hH]
        have hv : ((c / 262144 * 64 + c / 4096 % 64) * 64 + c / 64 % 64) * 64 + c % 64 = c := by
          omega
        rw [hv]

/-- The Encoding Adapter round-trips every valid text. -/
theorem decode_encode (text : List Nat) (h : ValidText text) :
    decode (encode text) = some text := by
  induction text with
  | nil => rfl
  | cons c cs ih =>
    have hc : c < 0x110000 := h c (List.mem_cons_self _ _)
    have hcs : ValidText cs := fun x hx => h x (List.mem_cons_of_mem _ hx)
    have he : encode (c :: cs) = encChar c ++ encode cs := by
      simp [encode]
    show decodeAux 0 0 (encode (c :: cs)) = some (c :: cs)
    rw [he, decodeAux_encChar c hc]
    have := ih hcs
    rw [show decodeAux 0 0 (encode cs) = decode (encode cs) from rfl, this]
    rfl

/-- Decimal rendering helper for the numeric nick disambiguator:
prepends the decimal digits of `n` to `acc`. -/
def natDigitsAux : Nat → List Char → List Char
  | 0, acc => acc
  | n + 1, acc => natDigitsAux ((n + 1) / 10) (Char.ofNat (48 + (n + 1) % 10) :: acc)
termination_by n _ => n
decreasing_by omega

/-- Decimal digit string of a natural number. -/
def natDigits (n : Nat) : List Char :=
  if n = 0 then ['0'] else natDigitsAux n []

theorem isDigit_ofNat_add (k : Nat) (h : k < 10) :
    (Char.ofNat (48 + k)).isDigit = true := by
  interval_cases k <;> decide

theorem natDigitsAux_spec (n : Nat) : ∀ acc, ∃ pre, natDigitsAux n acc = pre ++ acc ∧
    (n ≠ 0 → pre ≠ []) ∧ (∀ ch ∈ pre, Char.isDigit ch = true) := by
  induction n using Nat.strong_induction_on with
  | _ n ih =>
    intro acc
    match n with
    | 0 => exact ⟨[], by simp [natDigitsAux], fun h => absurd rfl h, by simp⟩
    | m + 1 =>
      obtain ⟨pre, hp, _, hd⟩ :=
        ih ((m + 1) / 10) (by omega) (Char.ofNat (48 + (m + 1) % 10) :: acc)
      refine ⟨pre ++ [Char.ofNat (48 + (m + 1) % 10)], ?_, fun _ => by simp, ?_⟩
      · rw [natDigitsAux, hp]
        simp
      · intro ch hch
        rcases List.mem_append.mp hch with h | h
        · exact hd ch h
        · rcases List.mem_singleton.mp h with rfl
          exact isDigit_ofNat_add _ (by omega)

theorem natDigits_ne_nil (n : Nat) : natDigits n ≠ [] := by
  unfold natDigits
  split
  · simp
  · obtain ⟨pre, hp, hne, _⟩ := natDigitsAux_spec n []
    rw [hp]
    simpa using hne (by assumption)

theorem natDigits_all_digit (n : Nat) : ∀ ch ∈ natDigits n, Char.isDigit ch = true := by
  unfold natDigits
  split
  · simp
  · obtain ⟨pre, hp, _, hd⟩ := natDigitsAux_spec n []
    rw [hp]
    simpa using hd

theorem isDigit_ne_underscore (ch : Char) (h : Char.isDigit ch = true) : ch ≠ '_' := by
  intro he
  subst he
  exact absurd h (by decide)

/-- Modelled from the spec: the Protocol Client session object of
`helga/comm.py` (not in the source excerpt) — current nickname plus the
set of joined channels. -/
structure Client where
  nickname : List Char
  channels : Finset (List Char)
deriving DecidableEq

/-- Modelled from the spec: the configuration collaborator — the
`auto_reconnect` flag and the ordered channel list, each entry a channel
with an optional join key. -/
structure Settings where
  AUTO_RECONNECT : Bool
  CHANNELS : List (List Char × Option (List Char))
deriving DecidableEq

/-- Observable actions of the session: outbound join/send requests,
lifecycle-signal emissions, a reconnect request on the connector, and an
event-loop shutdown request. -/
inductive Effect where
  | join : List Char → Option (List Char) → Effect
  | send : List Char → List Char → Effect
  | emit : List Char → Client → Option (List Char) → Effect
  | reconnect : Effect
  | reactorStop : Effect
deriving DecidableEq

def signonEvt : List Char := ['s', 'i', 'g', 'n', 'o', 'n']

def joinEvt : List Char := ['j', 'o', 'i', 'n']

def leftEvt : List Char := ['l', 'e', 'f', 't']

/-- Modelled from the spec: `parse_identity` (`parse_nick` in the tests)
returns the leading nick segment of a full `nick!user@host` descriptor. -/
def parse_nick (full : List Char) : List Char :=
  full.takeWhile (· != '!')

/-- Modelled from the spec: the base name of a nickname — the substring
before the first underscore-delimited disambiguator suffix. -/
def baseOf (nick : List Char) : List Char :=
  nick.takeWhile (· != '_')

/-- Modelled from the spec: `on_nick_collision` / `alterCollidedNick` of
`helga/comm.py` — strip any underscore-delimited suffix back to the base
name and append a fresh numeric disambiguator (the number, random or
clock-derived in the implementation, is a parameter here). -/
def alterCollidedNick (stamp : Nat) (attempted : List Char) : List Char :=
  baseOf attempted ++ '_' :: natDigits stamp

/-- Modelled from the spec: the chosen nick becomes the session's new
`nickname`; the handler also returns it. -/
def handleNickCollision (stamp : Nat) (c : Client) (attempted : List Char) :
    Client × List Char :=
  let newNick := alterCollidedNick stamp attempted
  ({ c with nickname := newNick }, newNick)

/-- Modelled from the spec: `on_signed_on` / `signedOn` — one join request
per configured channel entry, in configuration order, then one `signon`
lifecycle event carrying the session. -/
def signedOn (settings : Settings) (c : Client) : List Effect :=
  (settings.CHANNELS.map fun e => Effect.join e.1 e.2) ++
    [Effect.emit signonEvt c Option.none]

/-- Modelled from the spec: `on_private_line` / `privmsg` — extract the
sender nick, delegate to the command registry, and if the returned line
sequence is non-empty send one message, newline-joined, to the nominal
target unless that target is the session's own nickname (then to the
sender's nick). -/
def privmsg (registry : Client → List Char → List Char → List Char → List (List Char))
    (c : Client) (user channel message : List Char) : List Effect :=
  let nick := parse_nick user
  let responses := registry c channel nick message
  if responses.isEmpty then []
  else
    [Effect.send (if channel ≠ c.nickname then channel else nick)
      (List.intercalate ['\n'] responses)]

/-- Modelled from the spec: the Factory's connection-lost callback — with
`auto_reconnect` true it asks the connector to reconnect and returns
normally; with it false the failure reason is propagated (`Except.error`
models the raised exception). -/
def clientConnectionLost (settings : Settings) (reason : List Char) :
    Except (List Char) (List Effect) :=
  if settings.AUTO_RECONNECT then Except.ok [Effect.reconnect] else Except.error reason

/-- Modelled from the spec: the Factory's connection-failed callback —
unconditionally requests an event-loop shutdown; the settings argument
(holding `auto_reconnect`) is never consulted. -/
def clientConnectionFailed (_settings : Settings) (_reason : List Char) : List Effect :=
  [Effect.reactorStop]

/-- Modelled from the spec: `on_invite` — join the channel exactly when the
invitee is the session's own current nickname. -/
def on_invite (c : Client) (_inviter invitee channel : List Char) : List Effect :=
  if invitee = c.nickname then [Effect.join channel Option.none] else []

/-- Modelled from the spec: `on_joined` / `joined` — add the channel to the
membership set and publish a `join` event with the session and channel. -/
def joined (c : Client) (channel : List Char) : Client × List Effect :=
  let c' : Client := { c with channels := insert channel c.channels }
  (c', [Effect.emit joinEvt c' (Option.some channel)])

/-- Modelled from the spec: `on_left` / `left` — remove the channel from
the membership set unconditionally and publish a `left` event. -/
def left (c : Client) (channel : List Char) : Client × List Effect :=
  let c' : Client := { c with channels := c.channels.erase channel }
  (c', [Effect.emit leftEvt c' (Option.some channel)])

/-- Modelled from the spec: `on_kicked` / `kickedFrom` — treated identically
to a voluntary leave as far as the membership set is concerned. -/
def kickedFrom (c : Client) (channel _kicker _message : List Char) :
    Client × List Effect :=
  let c' : Client := { c with channels := c.channels.erase channel }
  (c', [Effect.emit leftEvt c' (Option.some channel)])

/-- Wire-level outbound calls: the payload fields hold the already-encoded
byte sequence handed to the protocol layer. -/
inductive WireEffect where
  | wireMsg : List Nat → List Nat → WireEffect
  | wireDescribe : List Nat → List Nat → WireEffect
  | wireJoin : List Nat → Option (List Nat) → WireEffect
  | wireLeave : List Nat → Option (List Nat) → WireEffect
deriving DecidableEq

/-- Modelled from the spec: the outbound `say` / `msg` call encodes the
message text before transmission. -/
def msg (target text : List Nat) : WireEffect :=
  WireEffect.wireMsg target (encode text)

/-- Modelled from the spec: the outbound describe-as-action (`me`) call
encodes the action text before transmission. -/
def me (target text : List Nat) : WireEffect :=
  WireEffect.wireDescribe target (encode text)

/-- Modelled from the spec: the outbound `join` call encodes the channel
and the optional join key before transmission. -/
def joinChannel (channel : List Nat) (key : Option (List Nat)) : WireEffect :=
  WireEffect.wireJoin (encode channel) (key.map encode)

/-- Modelled from the spec: the outbound `leave` call encodes the channel
and the optional reason before transmission. -/
def leaveChannel (channel : List Nat) (reason : Option (List Nat)) : WireEffect :=
  WireEffect.wireLeave (encode channel) (reason.map encode)

/-- The `last_poem` cache of `src/helga/plugins/haiku.py`, a
`defaultdict(list)` keyed by channel.  A stored `Option.none` models a
stored Python `None` (which `make_poem` can return); a missing key reads
as the empty list. -/
abbrev LastPoem := List (String × Option (List String))

/-- Reading `last_poem[channel]`: the stored value, or the defaultdict
default (an empty list) when the key is absent. -/
def lookupPoem (m : LastPoem) (channel : String) : Option (List String) :=
  match m.find? (fun p => p.1 == channel) with
  | Option.some p => p.2
  | Option.none => Option.some []

/-- Python truthiness of a cached poem: `None` and `[]` are falsy. -/
def isFalsy : Option (List String) → Bool
  | Option.none => true
  | Option.some l => l.isEmpty

/-- Writing `last_poem[channel] = poem`. -/
def setPoem (m : LastPoem) (channel : String) (poem : Option (List String)) : LastPoem :=
  (channel, poem) :: m.filter (fun p => p.1 != channel)

/-- Executing `del last_poem[channel]`. -/
def delPoem (m : LastPoem) (channel : String) : LastPoem :=
  m.filter (fun p => p.1 != channel)

/-- Outcome of running a piece of Python code: a value, or an uncaught
IndexError / KeyError. -/
inductive PyResult (α : Type) where
  | ok : α → PyResult α
  | indexError : PyResult α
  | keyError : PyResult α
deriving DecidableEq

/-- A value returned by the haiku command: a poem (list of lines), a plain
message string, or Python `None`. -/
inductive HaikuRet where
  | poem : List String → HaikuRet
  | text : String → HaikuRet
  | pynone : HaikuRet
deriving DecidableEq

/-- Results of the db/random-backed collaborators that the haiku command
dispatches to (`make_poem`, `blame`, `add`, `add_use`, `use`, `remove`,
`claim` all consult the database or the RNG, which are outside the
program state modelled here). -/
structure HaikuEnv where
  make_poem : Option String → Option String → Option (List String)
  blame : String → String → String → String
  add : Nat → String → String → String
  add_use : Nat → String → String → HaikuRet
  use : Nat → String → HaikuRet
  remove : Nat → String → String
  claim : Nat → String → String → String

/-- The `SYLLABLES_TO_INT` dict of `src/helga/plugins/haiku.py`;
`Option.none` means the lookup would raise KeyError. -/
def SYLLABLES_TO_INT (k : String) : Option Nat :=
  if k = "fives" then Option.some 5
  else if k = "sevens" then Option.some 7
  else Option.none

/-- Returning a possibly-`None` poem from the command. -/
def retOfPoem : Option (List String) → HaikuRet
  | Option.some p => HaikuRet.poem p
  | Option.none => HaikuRet.pynone

/-- The `haiku` command entry point, translated from
`src/helga/plugins/haiku.py` lines 25-55.  `subcmd = args[0]` is evaluated
first, so an empty `args` raises IndexError before the `if not args`
guard; that guard's branch is kept here exactly as written even though it
is unreachable. -/
def haiku (env : HaikuEnv) (lp : LastPoem)
    (client_nickname channel nick _message _cmd : String)
    (args : List String) : PyResult (HaikuRet × LastPoem) :=
  match args.head? with
  | Option.none => PyResult.indexError
  | Option.some subcmd =>
    if args.isEmpty then
      let poem := env.make_poem Option.none Option.none
      PyResult.ok (retOfPoem poem, setPoem lp channel poem)
    else if subcmd = "about" ∨ subcmd = "by" then
      let keyword := String.intercalate " " (args.drop 1)
      let poem :=
        if subcmd = "about" then env.make_poem (Option.some keyword) Option.none
        else env.make_poem Option.none (Option.some keyword)
      PyResult.ok (retOfPoem poem, setPoem lp channel poem)
    else if subcmd = "blame" then
      PyResult.ok (HaikuRet.text (env.blame channel nick client_nickname), lp)
    else
      match args[1]? with
      | Option.none => PyResult.indexError
      | Option.some a1 =>
        match SYLLABLES_TO_INT a1 with
        | Option.none => PyResult.keyError
        | Option.some num_syllables =>
          let input := String.intercalate " " (args.drop 2)
          if subcmd = "add" then
            PyResult.ok (HaikuRet.text (env.add num_syllables input nick), lp)
          else if subcmd = "add_use" then
            PyResult.ok (env.add_use num_syllables input nick, lp)
          else if subcmd = "use" then
            PyResult.ok (env.use num_syllables input, lp)
          else if subcmd = "remove" then
            PyResult.ok (HaikuRet.text (env.remove num_syllables input), lp)
          else if subcmd = "claim" then
            PyResult.ok (HaikuRet.text (env.claim num_syllables input nick), lp)
          else
            PyResult.ok (HaikuRet.pynone, lp)

/-- The `tweet` operation, translated from `src/helga/plugins/haiku.py`
lines 183-198.  `send_tweet` is the external social-media collaborator;
`Option.none` models a falsy (failed) response. -/
def tweet (send_tweet : String → Option String) (last_poem : LastPoem)
    (channel requested_by : String) : String × LastPoem :=
  let last := lookupPoem last_poem channel
  if isFalsy last then
    (requested_by ++ ", why don" ++ String.singleton (Char.ofNat 39) ++
      "t you try making one first", last_poem)
  else
    match send_tweet (String.intercalate "\n" (last.getD [])) with
    | Option.none => (requested_by ++ ", that probably did not work :(", last_poem)
    | Option.some resp => (resp, delPoem last_poem channel)

theorem takeWhile_append_cons {p : Char → Bool} (l t : List Char) (a : Char)
    (hl : ∀ x ∈ l, p x = true) (ha : p a = false) :
    (l ++ a :: t).takeWhile p = l := by
  induction l with
  | nil => simp [List.takeWhile_cons, ha]
  | cons x xs ih =>
    have hx : p x = true := hl x (by simp)
    simp only [List.cons_append, List.takeWhile_cons, hx, if_true]
    rw [ih (fun y hy => hl y (by simp [hy]))]

theorem baseOf_eq_self (l : List Char) (h : '_' ∉ l) : baseOf l = l := by
  unfold baseOf
  induction l with
  | nil => rfl
  | cons x xs ih =>
    have hx : x ≠ '_' := fun he => h (he ▸ List.mem_cons_self _ _)
    simp only [List.takeWhile_cons, bne_iff_ne, ne_eq, hx, not_false_eq_true, if_true,
      List.cons.injEq, true_and]
    exact ih (fun hm => h (List.mem_cons_of_mem _ hm))

theorem baseOf_append_digits (base ds : List Char) (hb : '_' ∉ base) :
    baseOf (base ++ '_' :: ds) = base := by
  unfold baseOf
  refine takeWhile_append_cons base ds '_' ?_ (by decide)
  intro x hx
  have : x ≠ '_' := fun he => hb (he ▸ hx)
  simpa [bne_iff_ne] using this

theorem underscore_not_mem_natDigits (n : Nat) : '_' ∉ natDigits n := by
  intro hm
  exact isDigit_ne_underscore '_' (natDigits_all_digit n '_' hm) rfl

/-- A nickname of the shape `base_<digits>`: the base followed by one
underscore and a nonempty run of decimal digits. -/
def NickForm (base candidate : List Char) : Prop :=
  ∃ ds, ds ≠ [] ∧ (∀ ch ∈ ds, Char.isDigit ch = true) ∧ candidate = base ++ '_' :: ds

/-- C1: collision handling always produces `base_<digits>` over the base
name (the part before the first underscore); colliding and colliding again
yields `base_<digits>` with exactly one underscore, never
`base_<digits>_<digits>`, and the chosen nick becomes the session's
current nickname. -/
theorem alterCollidedNick_spec (stamp1 stamp2 : Nat) (c : Client)
    (attempted : List Char) (h : '_' ∉ attempted) :
    (∀ stamp nick, NickForm (baseOf nick) (alterCollidedNick stamp nick))
    ∧ NickForm attempted (alterCollidedNick stamp1 attempted)
    ∧ NickForm attempted (alterCollidedNick stamp2 (alterCollidedNick stamp1 attempted))
    ∧ (alterCollidedNick stamp2 (alterCollidedNick stamp1 attempted)).count '_' = 1
    ∧ (handleNickCollision stamp1 c attempted).1.nickname =
        alterCollidedNick stamp1 attempted := by
  have hb : baseOf attempted = attempted := baseOf_eq_self attempted h
  have h1 : alterCollidedNick stamp1 attempted = attempted ++ '_' :: natDigits stamp1 := by
    unfold alterCollidedNick
    rw [hb]
  have h2 : alterCollidedNick stamp2 (alterCollidedNick stamp1 attempted) =
      attempted ++ '_' :: natDigits stamp2 := by
    rw [h1]
    unfold alterCollidedNick
    rw [baseOf_append_digits attempted _ h]
  refine ⟨fun stamp nick => ⟨natDigits stamp, natDigits_ne_nil _, natDigits_all_digit _, rfl⟩,
    ⟨natDigits stamp1, natDigits_ne_nil _, natDigits_all_digit _, h1⟩,
    ⟨natDigits stamp2, natDigits_ne_nil _, natDigits_all_digit _, h2⟩, ?_, rfl⟩
  rw [h2, List.count_append, List.count_cons_self,
    List.count_eq_zero.mpr h, List.count_eq_zero.mpr (underscore_not_mem_natDigits stamp2)]

theorem alterCollidedNick_spec_witness :
    '_' ∉ ['f', 'o', 'o']
    ∧ ((∀ stamp nick, NickForm (baseOf nick) (alterCollidedNick stamp nick))
      ∧ NickForm ['f', 'o', 'o'] (alterCollidedNick 123 ['f', 'o', 'o'])
      ∧ NickForm ['f', 'o', 'o'] (alterCollidedNick 456 (alterCollidedNick 123 ['f', 'o', 'o']))
      ∧ (alterCollidedNick 456 (alterCollidedNick 123 ['f', 'o', 'o'])).count '_' = 1
      ∧ (handleNickCollision 123 (Client.mk ['f', 'o', 'o'] ∅) ['f', 'o', 'o']).1.nickname =
          alterCollidedNick 123 ['f', 'o', 'o']) :=
  ⟨by decide,
    alterCollidedNick_spec 123 456 (Client.mk ['f', 'o', 'o'] ∅) ['f', 'o', 'o'] (by decide)⟩

/-- C2: an inbound private line is answered toward the sender's nick when
the nominal target is the session's own nickname and toward the nominal
target otherwise, and a non-empty registry response is sent as exactly one
outbound message whose text is the lines joined by one newline. -/
theorem privmsg_spec
    (registry : Client → List Char → List Char → List Char → List (List Char))
    (c : Client) (user channel message : List Char) :
    (registry c channel (parse_nick user) message = [] →
      privmsg registry c user channel message = [])
    ∧ (registry c channel (parse_nick user) message ≠ [] →
      (privmsg registry c user channel message).length = 1
      ∧ privmsg registry c user channel message =
        [Effect.send (if channel = c.nickname then parse_nick user else channel)
          (List.intercalate ['\n'] (registry c channel (parse_nick user) message))]) := by
  constructor
  · intro h
    simp [privmsg, h]
  · intro h
    have hne : (registry c channel (parse_nick user) message).isEmpty = false := by
      simpa [List.isEmpty_iff] using h
    by_cases hc : channel = c.nickname
    · subst hc
      simp [privmsg, hne, h]
    · simp [privmsg, hne, hc, h]

theorem privmsg_spec_witness :
    privmsg (fun _ _ _ _ => [['l', 'i', 'n', 'e', '1'], ['l', 'i', 'n', 'e', '2']])
      (Client.mk ['h', 'e', 'l', 'g', 'a'] ∅)
      ['f', 'o', 'o', '!', 'b', 'a', 'r'] ['#', 'b', 'o', 't', 's'] ['h', 'i'] =
      [Effect.send ['#', 'b', 'o', 't', 's']
        ['l', 'i', 'n', 'e', '1', '\n', 'l', 'i', 'n', 'e', '2']] := by
  have h := (privmsg_spec
      (fun _ _ _ _ => [['l', 'i', 'n', 'e', '1'], ['l', 'i', 'n', 'e', '2']])
      (Client.mk ['h', 'e', 'l', 'g', 'a'] ∅)
      ['f', 'o', 'o', '!', 'b', 'a', 'r'] ['#', 'b', 'o', 't', 's'] ['h', 'i']).2
      (by decide)
  rw [h.2]
  decide

/-- C3: after an established connection is lost, the Factory reconnects
and returns normally when `auto_reconnect` is true, and propagates the
failure to the caller when it is false. -/
theorem clientConnectionLost_spec (reason : List Char)
    (cfg : List (List Char × Option (List Char))) :
    clientConnectionLost (Settings.mk true cfg) reason = Except.ok [Effect.reconnect]
    ∧ clientConnectionLost (Settings.mk false cfg) reason = Except.error reason :=
  ⟨rfl, rfl⟩

/-- C4: a failed initial connection attempt always requests an event-loop
shutdown, for every settings value (so independently of `auto_reconnect`)
and every failure reason. -/
theorem clientConnectionFailed_spec (s s' : Settings) (reason reason' : List Char) :
    clientConnectionFailed s reason = [Effect.reactorStop]
    ∧ clientConnectionFailed s reason = clientConnectionFailed s' reason' :=
  ⟨rfl, rfl⟩

/-- The channel/key arguments of a join effect, if it is one. -/
def joinArgs : Effect → Option (List Char × Option (List Char))
  | Effect.join ch key => Option.some (ch, key)
  | _ => Option.none

theorem filterMap_joinArgs_map (l : List (List Char × Option (List Char))) :
    (l.map fun e => Effect.join e.1 e.2).filterMap joinArgs = l := by
  induction l with
  | nil => rfl
  | cons x xs ih => simp [joinArgs, ih]

theorem getLast?_append_singleton {α : Type} (l : List α) (a : α) :
    (l ++ [a]).getLast? = Option.some a := by
  induction l with
  | nil => rfl
  | cons x xs ih =>
    cases xs with
    | nil => rfl
    | cons y ys =>
      rw [List.cons_append, List.cons_append, List.getLast?_cons_cons]
      simpa using ih

/-- C5: the signed-on handler issues exactly one join per configured
channel entry, with its key, in configuration order, and after all joins
publishes exactly one `signon` event carrying the session. -/
theorem signedOn_spec (s : Settings) (c : Client) :
    (signedOn s c).filterMap joinArgs = s.CHANNELS
    ∧ (signedOn s c).count (Effect.emit signonEvt c Option.none) = 1
    ∧ (signedOn s c).getLast? = Option.some (Effect.emit signonEvt c Option.none)
    ∧ (signedOn s c).length = s.CHANNELS.length + 1 := by
  refine ⟨?_, ?_, ?_, ?_⟩
  · rw [signedOn, List.filterMap_append, filterMap_joinArgs_map]
    simp [joinArgs]
  · rw [signedOn, List.count_append]
    have h0 : (s.CHANNELS.map fun e => Effect.join e.1 e.2).count
        (Effect.emit signonEvt c Option.none) = 0 := by
      rw [List.count_eq_zero]
      intro hm
      obtain ⟨e, -, he⟩ := List.mem_map.mp hm
      exact Effect.noConfusion he
    rw [h0]
    simp
  · exact getLast?_append_singleton _ _
  · simp [signedOn]

/-- C6: an invite triggers a join request exactly when the invitee is the
session's own current nickname; any other invitee produces no call. -/
theorem on_invite_spec (c : Client) (inviter invitee channel : List Char) :
    ((∃ key, Effect.join channel key ∈ on_invite c inviter invitee channel) ↔
      invitee = c.nickname)
    ∧ (invitee ≠ c.nickname → on_invite c inviter invitee channel = []) := by
  unfold on_invite
  by_cases h : invitee = c.nickname <;> simp [h]

theorem on_invite_spec_witness :
    on_invite (Client.mk ['h', 'e', 'l', 'g', 'a'] ∅) ['m', 'e']
      ['o', 't', 'h', 'e', 'r'] ['#', 'b', 'o', 't', 's'] = []
    ∧ (∃ key, Effect.join ['#', 'b', 'o', 't', 's'] key ∈
        on_invite (Client.mk ['h', 'e', 'l', 'g', 'a'] ∅) ['m', 'e']
          ['h', 'e', 'l', 'g', 'a'] ['#', 'b', 'o', 't', 's']) :=
  ⟨(on_invite_spec (Client.mk ['h', 'e', 'l', 'g', 'a'] ∅) ['m', 'e']
      ['o', 't', 'h', 'e', 'r'] ['#', 'b', 'o', 't', 's']).2 (by decide),
    (on_invite_spec (Client.mk ['h', 'e', 'l', 'g', 'a'] ∅) ['m', 'e']
      ['h', 'e', 'l', 'g', 'a'] ['#', 'b', 'o', 't', 's']).1.mpr rfl⟩

instance (text : List Nat) : Decidable (ValidText text) :=
  inferInstanceAs (Decidable (∀ cp ∈ text, cp < 0x110000))

/-- C7: every outbound operation hands the Encoding Adapter's encoding of
its text to the wire (U+2603 becomes the bytes e2 98 83), and encode
followed by decode returns every valid text unchanged. -/
theorem encoding_spec (target text channel : List Nat) (key reason : Option (List Nat)) :
    msg target text = WireEffect.wireMsg target (encode text)
    ∧ me target text = WireEffect.wireDescribe target (encode text)
    ∧ joinChannel channel key = WireEffect.wireJoin (encode channel) (key.map encode)
    ∧ leaveChannel channel reason = WireEffect.wireLeave (encode channel) (reason.map encode)
    ∧ encode [0x2603] = [0xE2, 0x98, 0x83]
    ∧ (ValidText text → decode (encode text) = Option.some text) :=
  ⟨rfl, rfl, rfl, rfl, by decide, decode_encode text⟩

theorem encoding_spec_witness :
    ValidText [0x2603]
    ∧ decode (encode [0x2603]) = Option.some [0x2603]
    ∧ msg [35] [0x2603] = WireEffect.wireMsg [35] [0xE2, 0x98, 0x83] := by
  have h := encoding_spec [35] [0x2603] [35] Option.none Option.none
  refine ⟨by decide, h.2.2.2.2.2 (by decide), ?_⟩
  rw [h.1]
  decide

/-- C8: membership handling is idempotent — joining a channel twice leaves
the membership set the same size as joining once (the channel is a member
either way), and leaving or being kicked from a channel not in the set is
a total operation that leaves the set without that channel. -/
theorem membership_spec (c : Client) (channel kicker reason : List Char) :
    (joined (joined c channel).1 channel).1.channels.card =
        (joined c channel).1.channels.card
    ∧ channel ∈ (joined c channel).1.channels
    ∧ (channel ∉ c.channels →
        (left c channel).1.channels = c.channels
        ∧ (kickedFrom c channel kicker reason).1.channels = c.channels)
    ∧ channel ∉ (left c channel).1.channels
    ∧ channel ∉ (kickedFrom c channel kicker reason).1.channels := by
  refine ⟨?_, ?_, ?_, ?_, ?_⟩
  · simp [joined, Finset.insert_idem]
  · simp [joined]
  · intro h
    constructor <;> simp [left, kickedFrom, Finset.erase_eq_of_not_mem h]
  · simp [left]
  · simp [kickedFrom]

theorem membership_spec_witness :
    ['f'] ∉ (Client.mk ['h'] ∅).channels
    ∧ ((left (Client.mk ['h'] ∅) ['f']).1.channels = (Client.mk ['h'] ∅).channels
      ∧ (kickedFrom (Client.mk ['h'] ∅) ['f'] ['m'] ['r']).1.channels =
          (Client.mk ['h'] ∅).channels) :=
  ⟨by decide, (membership_spec (Client.mk ['h'] ∅) ['f'] ['m'] ['r']).2.2.1 (by decide)⟩

/-- C9: calling the haiku command with an empty argument list raises
IndexError at `subcmd = args[0]` before the `if not args` guard runs, so
it never returns a value — in particular never a poem — for empty args. -/
theorem haiku_empty_args_spec (env : HaikuEnv) (lp : LastPoem)
    (client_nickname channel nick message cmd : String) :
    haiku env lp client_nickname channel nick message cmd [] = PyResult.indexError
    ∧ ∀ ret, haiku env lp client_nickname channel nick message cmd [] ≠ PyResult.ok ret := by
  refine ⟨rfl, ?_⟩
  intro ret h
  simp [haiku] at h

/-- A concrete collaborator environment for exercising the haiku command. -/
def sampleEnv : HaikuEnv :=
  { make_poem := fun _ _ => Option.some ["one", "two", "three"]
    blame := fun _ _ _ => "blamed"
    add := fun _ _ _ => "added"
    add_use := fun _ _ _ => HaikuRet.pynone
    use := fun _ _ => HaikuRet.pynone
    remove := fun _ _ => "removed"
    claim := fun _ _ _ => "claimed" }

theorem haiku_empty_args_spec_witness :
    haiku sampleEnv [] "helga" "#bots" "me" "hi" "haiku" [] = PyResult.indexError
    ∧ haiku sampleEnv [] "helga" "#bots" "me" "hi" "haiku" [] ≠
        PyResult.ok (HaikuRet.poem ["one", "two", "three"], [])  :=
  ⟨(haiku_empty_args_spec sampleEnv [] "helga" "#bots" "me" "hi" "haiku").1,
    (haiku_empty_args_spec sampleEnv [] "helga" "#bots" "me" "hi" "haiku").2
      (HaikuRet.poem ["one", "two", "three"], [])⟩

/-- C10: with a non-falsy cached poem, a falsy response from the external
send leaves the cache untouched and returns a failure message, so the
tweet can be retried; the cache entry is deleted only on success. -/
theorem tweet_spec (st : LastPoem) (channel requested_by : String)
    (h : isFalsy (lookupPoem st channel) = false) :
    (∀ send_tweet : String → Option String,
      send_tweet (String.intercalate "\n" ((lookupPoem st channel).getD [])) =
          Option.none →
      tweet send_tweet st channel requested_by =
        (requested_by ++ ", that probably did not work :(", st))
    ∧ (∀ (send_tweet : String → Option String) (resp : String),
      send_tweet (String.intercalate "\n" ((lookupPoem st channel).getD [])) =
          Option.some resp →
      tweet send_tweet st channel requested_by = (resp, delPoem st channel)) := by
  constructor
  · intro f hf
    simp [tweet, h, hf]
  · intro f resp hf
    simp [tweet, h, hf]

theorem tweet_spec_witness :
    isFalsy (lookupPoem [("#bots", Option.some ["a"])] "#bots") = false
    ∧ tweet (fun _ => Option.none) [("#bots", Option.some ["a"])] "#bots" "me" =
        ("me, that probably did not work :(", [("#bots", Option.some ["a"])])
    ∧ tweet (fun _ => Option.some "ok") [("#bots", Option.some ["a"])] "#bots" "me" =
        ("ok", delPoem [("#bots", Option.some ["a"])] "#bots") :=
  ⟨rfl,
    (tweet_spec [("#bots", Option.some ["a"])] "#bots" "me" rfl).1
      (fun _ => Option.none) rfl,
    (tweet_spec [("#bots", Option.some ["a"])] "#bots" "me" rfl).2
      (fun _ => Option.some "ok") "ok" rfl⟩

end Helga
